import Mathlib

/-!
Verification of the cloudfox graph ingestor core (package `ingestor`).

The Go source is shallowly embedded below.  Pure control flow
(`ProcessFileObjects`, `InsertDBObjects`, `ProcessFile`, `Run`) is translated
function by function; the concurrent fan-out/fan-in of `Run` is sequentialized,
which is sound for the properties stated here because the `sync.WaitGroup`
barrier in the source orders every worker completion before the resolver
query.  The Neo4j/APOC store that backs the three Cypher templates
(`MergeNodeQueryTemplate`, `MergeRelationQueryTemplate`,
`PostProcessMergeQueryTemplate`) is modelled as an explicit store value with
the documented APOC merge semantics: `apoc.merge.node` matches a node by
(label, identity property) and creates it when absent, `apoc.merge.relationship`
matches a relationship by (source, type, target) and creates it when absent,
on-match updates never delete properties.  Repository code that the ingestor
imports but that is outside the provided sources (packages `schema` and
`models`) is modelled from the specification and marked as such.
-/

namespace CloudfoxIngestor

/-- Node labels, from the `schema` package as used by `ProcessFile`
(`schema.Account`, `schema.Role`). -/
inductive NodeLabel
  | Account
  | Role
deriving DecidableEq, Repr

/-- Property values.  `str` is a store-primitive value.  `unconvertible` models
a custom-typed field value that `schema.ConvertCustomTypesToNeo4j` cannot
serialize (spec 4.4: conversion failure is scoped to one node). -/
inductive PVal
  | str (s : String)
  | unconvertible
deriving DecidableEq, Repr

/-- A record / property map: an association list from field names to values.
Models both a decoded Go struct and a Neo4j property map. -/
abbrev Props := List (String × PVal)

/-- Set one field of a record: update the first binding in place when the key
exists, otherwise append the new binding. -/
def setField : Props → String → PVal → Props
  | [], k, v => [(k, v)]
  | (k', v') :: rest, k, v =>
      if k' = k then (k', v) :: rest else (k', v') :: setField rest k v

/-- Read one field of a record. -/
def lookupField : Props → String → Option PVal
  | [], _ => none
  | (k, v) :: rest, key => if k = key then some v else lookupField rest key

/-- Merge `upd` onto `old`: keys of `upd` overwrite, keys only in `old` are
retained (the `SET n += map` semantics used by the merge templates). -/
def mergeProps (old upd : Props) : Props :=
  upd.foldl (fun acc kv => setField acc kv.1 kv.2) old

/-- Go `json.Unmarshal(line, &object)` into an existing struct: every field
present in the decoded JSON object is assigned, every absent field keeps the
value `object` already had. -/
def unmarshalInto (object fields : Props) : Props :=
  mergeProps object fields

/-- Modelled from the spec: `schema.Relationship` (not under the provided
sources); field list from spec section 3 and the batch rows of
`MergeRelationQueryTemplate`.  `relType` stands for the Go field `Type`. -/
structure Relationship where
  relType : String
  sourceLabel : NodeLabel
  sourceProperty : String
  sourceNodeId : String
  targetLabel : NodeLabel
  targetProperty : String
  targetNodeId : String
  properties : Props
deriving DecidableEq, Repr

/-- The per-row defaulting done by `InsertDBObjects` (src lines 205-210):
empty `SourceProperty`/`TargetProperty` become `"Id"`. -/
def defaultRelProps (r : Relationship) : Relationship :=
  { r with
    sourceProperty := if r.sourceProperty = "" then "Id" else r.sourceProperty
    targetProperty := if r.targetProperty = "" then "Id" else r.targetProperty }

/-- A physical store node: internal id, label set, property map. -/
structure StoreNode where
  nid : Nat
  labels : List NodeLabel
  props : Props
deriving DecidableEq, Repr

/-- A physical store relationship between two internal node ids. -/
structure StoreRel where
  srcId : Nat
  relType : String
  tgtId : Nat
  props : Props
deriving DecidableEq, Repr

/-- The backing graph store. -/
structure Store where
  nextId : Nat
  nodes : List StoreNode
  rels : List StoreRel
deriving DecidableEq, Repr

def emptyStore : Store := ⟨0, [], []⟩

/-- Does node `n` match the merge pattern (label, property = value)? -/
def nodeMatches (label : NodeLabel) (prop : String) (v : PVal) (n : StoreNode) : Bool :=
  n.labels.contains label && lookupField n.props prop == some v

def hasNodeMatch (s : Store) (label : NodeLabel) (prop : String) (v : PVal) : Bool :=
  s.nodes.any (nodeMatches label prop v)

def findNode (s : Store) (label : NodeLabel) (prop : String) (v : PVal) : Option StoreNode :=
  s.nodes.find? (nodeMatches label prop v)

/-- Apply `f` to the first node satisfying `p`; `none` when no node matches. -/
def updateFirst (p : StoreNode → Bool) (f : StoreNode → StoreNode) :
    List StoreNode → Option (List StoreNode)
  | [] => none
  | n :: rest =>
      if p n then some (f n :: rest)
      else (updateFirst p f rest).map (n :: ·)

/-- `MergeNodeQueryTemplate` (src lines 20-22):
`apoc.merge.node([$labels[0]], {Id: $Id}, $properties, $properties)` followed by
`apoc.create.setLabels(obj, $labels)`.  Matches a node by (first label,
`Id` = `idv`); on match merges `props` onto it, on miss creates it with the
identity property plus `props`; either way the full label list replaces the
node's labels.  A `none` identity value makes the Cypher merge fail, leaving
the store unchanged (the driver surfaces an error, handled by the caller). -/
def applyMergeNode (s : Store) (labels : List NodeLabel) (idv : Option PVal)
    (props : Props) : Store :=
  match idv, labels.head? with
  | none, _ => s
  | _, none => s
  | some v, some l0 =>
      match updateFirst (nodeMatches l0 "Id" v)
          (fun n => { n with labels := labels, props := mergeProps n.props props })
          s.nodes with
      | some nodes' => { s with nodes := nodes' }
      | none =>
          { s with
            nextId := s.nextId + 1
            nodes := s.nodes ++ [⟨s.nextId, labels, mergeProps [("Id", v)] props⟩] }

/-- The two-argument `apoc.merge.node([label], {prop: v})` used for
relationship endpoints in `MergeRelationQueryTemplate`: on match nothing
changes, on miss a stub node carrying only the identity property is created. -/
def applyStubMerge (s : Store) (label : NodeLabel) (prop : String) (v : PVal) : Store :=
  if hasNodeMatch s label prop v then s
  else
    { s with
      nextId := s.nextId + 1
      nodes := s.nodes ++ [⟨s.nextId, [label], [(prop, v)]⟩] }

/-- The two endpoint merges of one `UNWIND` row, in row order: source first,
then target. -/
def stubBoth (s : Store) (r : Relationship) : Store :=
  applyStubMerge (applyStubMerge s r.sourceLabel r.sourceProperty (PVal.str r.sourceNodeId))
    r.targetLabel r.targetProperty (PVal.str r.targetNodeId)

/-- Is there a relationship of type `t` from internal node `a` to internal
node `b`?  (The match pattern of `apoc.merge.relationship` with empty
identity properties.) -/
def relExists (s : Store) (a : Nat) (t : String) (b : Nat) : Bool :=
  s.rels.any fun rel => rel.srcId == a && rel.relType == t && rel.tgtId == b

/-- One `UNWIND` row of `MergeRelationQueryTemplate` (src lines 24-28):
merge the source endpoint, merge the target endpoint, then
`apoc.merge.relationship(from, type, {}, props, to)` — match any relationship
of that type between the two endpoints, create it with `props` when absent,
change nothing on match. -/
def applyRelRow (s : Store) (r : Relationship) : Store :=
  let s2 := stubBoth s r
  match findNode s2 r.sourceLabel r.sourceProperty (PVal.str r.sourceNodeId),
        findNode s2 r.targetLabel r.targetProperty (PVal.str r.targetNodeId) with
  | some nfrom, some nto =>
      if relExists s2 nfrom.nid r.relType nto.nid then s2
      else { s2 with rels := s2.rels ++ [⟨nfrom.nid, r.relType, nto.nid, r.properties⟩] }
  | _, _ => s2

/-- The whole batched relationship query: the rows are processed in order. -/
def insertRelBatch (s : Store) (rows : List Relationship) : Store :=
  rows.foldl applyRelRow s

/-- A store query issued through `neo4j.ExecuteQuery`. -/
inductive Op
  | mergeNode (labels : List NodeLabel) (idv : Option PVal) (props : Props)
  | mergeRels (rows : List Relationship)
deriving DecidableEq, Repr

def applyOp (s : Store) : Op → Store
  | .mergeNode labels idv props => applyMergeNode s labels idv props
  | .mergeRels rows => insertRelBatch s rows

/-- One line of an input file, together with the outcome of decoding it.
`blank` is the empty line (`len(line) = 0`); `malformed raw` is a non-blank
line on which `json.Unmarshal` fails without assigning any field (a JSON
syntax error); `obj raw fields` is a non-blank line decoding to the JSON
object `fields`. -/
inductive Line
  | blank
  | malformed (raw : String)
  | obj (raw : String) (fields : Props)
deriving DecidableEq, Repr

/-- The log statements the pipeline can emit (`log.Errorf` / `log.Error`). -/
inductive LogEvent
  | decodeError (raw : String)
  | conversionError (object : Props)
  | insertNodeError (idv : Option PVal)
  | insertRelsError (rows : List Relationship)
deriving DecidableEq, Repr

/-- External collaborators of `ProcessFileObjects`, passed as parameters:
`nodeLabelToNodeMap` — modelled from the spec: `models.NodeLabelToNodeMap`
(not under the provided sources), the prototype record for a label (spec 4.1);
`makeRelationships` — modelled from the spec: the `MakeRelationships` method
of the `models` types, a pure function of the record's current state
(spec 4.3); `storeFail` — which `neo4j.ExecuteQuery` calls fail on the store
side (an infrastructure-failure oracle; `false` everywhere is a healthy
store). -/
structure IngestCtx where
  nodeLabelToNodeMap : NodeLabel → Props
  makeRelationships : NodeLabel → Props → List Relationship
  storeFail : Op → Bool

/-- The state threaded through the scan loop of `ProcessFileObjects`: the
single decode target `object` declared once before the loop (src line 139),
the store, the log lines emitted so far, and the store queries issued so far
(each `neo4j.ExecuteQuery` call, whether or not it succeeded). -/
structure LoopState where
  object : Props
  store : Store
  logs : List LogEvent
  ops : List Op
deriving DecidableEq, Repr

def initLoopState (ctx : IngestCtx) (objectType : NodeLabel) (s : Store) : LoopState :=
  ⟨ctx.nodeLabelToNodeMap objectType, s, [], []⟩

/-- `ConvertCustomTypesToNeo4j`.  Modelled from the spec: the function lives in
the `schema` package (not under the provided sources); spec 4.4 — it flattens
a record to a store-compatible property map and fails when a custom field
value cannot be serialized; on primitive fields it is the identity. -/
def convertCustomTypesToNeo4j (object : Props) : Except String Props :=
  if object.any (fun kv => kv.2 == PVal.unconvertible) then
    Except.error "conversion error"
  else
    Except.ok object

/-- `InsertDBObjects` (src lines 172-229), returning the new store, the log
lines of this call (the errors it logs itself plus the one its caller logs on
a returned error — the effect is identical), and the queries issued.
Control flow mirrored from the source: a conversion failure returns before the
node query is issued; a node-query failure returns before the relationship
batch is processed; an empty relationship list issues no batch query.
A `nil` identity (`nodeMap["Id"]` missing) makes the Cypher merge-on-null
fail, which the source handles as a node-write error. -/
def insertDBObjects (ctx : IngestCtx) (object : Option Props)
    (relationships : List Relationship) (labels : List NodeLabel) (s : Store) :
    Store × List LogEvent × List Op :=
  let relStage : Store → List Op → Store × List LogEvent × List Op := fun s' ops =>
    if relationships.isEmpty then (s', [], ops)
    else
      let rows := relationships.map defaultRelProps
      let relOp := Op.mergeRels rows
      if ctx.storeFail relOp then (s', [.insertRelsError rows], ops ++ [relOp])
      else (applyOp s' relOp, [], ops ++ [relOp])
  match object with
  | none => relStage s []
  | some obj =>
      match convertCustomTypesToNeo4j obj with
      | .error _ => (s, [.conversionError obj], [])
      | .ok nodeMap =>
          let idv := lookupField nodeMap "Id"
          let nodeOp := Op.mergeNode labels idv nodeMap
          if idv.isNone || ctx.storeFail nodeOp then
            (s, [.insertNodeError idv], [nodeOp])
          else relStage (applyOp s nodeOp) [nodeOp]

/-- The body shared by the blank-line and decoded-line paths of the scan loop
(src lines 162-166): synthesize relationships from the current decode target
and call `InsertDBObjects`; an error is logged and the loop continues. -/
def insertCurrentObject (ctx : IngestCtx) (objectType generalType : NodeLabel)
    (st : LoopState) : LoopState :=
  let relationships := ctx.makeRelationships objectType st.object
  let t := insertDBObjects ctx (some st.object) relationships [generalType, objectType] st.store
  { st with store := t.1, logs := st.logs ++ t.2.1, ops := st.ops ++ t.2.2 }

/-- One iteration of the scan loop of `ProcessFileObjects` (src lines
152-168).  Only the `json.Unmarshal` call is guarded by `len(line) > 0`: a
blank line still reaches `MakeRelationships` and `InsertDBObjects` with the
decode target in whatever state the previous iteration left it.  A decode
failure logs the error with the raw line and skips to the next line.  A
successful decode assigns the decoded fields into the shared decode target. -/
def processLine (ctx : IngestCtx) (objectType generalType : NodeLabel)
    (st : LoopState) : Line → LoopState
  | .blank => insertCurrentObject ctx objectType generalType st
  | .malformed raw => { st with logs := st.logs ++ [.decodeError raw] }
  | .obj _raw fields =>
      insertCurrentObject ctx objectType generalType
        { st with object := unmarshalInto st.object fields }

/-- The scan loop over all lines of a file, in file order. -/
def processLines (ctx : IngestCtx) (objectType generalType : NodeLabel)
    (st : LoopState) (lines : List Line) : LoopState :=
  lines.foldl (processLine ctx objectType generalType) st

/-- `ProcessFileObjects` (src lines 137-170): look up the prototype, open the
file (`content = none` models an `os.Open` failure, returned to the caller),
scan the lines, return `nil`.  The scanner's newline handling and the no-op
`strings.TrimSuffix` are already folded into `Line`. -/
def processFileObjects (ctx : IngestCtx) (content : Option (List Line))
    (objectType generalType : NodeLabel) (s : Store) : Except String LoopState :=
  match content with
  | none => Except.error "open failed"
  | some lines =>
      Except.ok (processLines ctx objectType generalType (initLoopState ctx objectType s) lines)

/-- One entry produced by `filepath.Walk` over the input directory:
its path, its basename (`info.Name()`), whether it is a directory, and the
result of opening it (`none` models an `os.Open` failure; directories simply
carry whatever line list reading them would yield, typically none). -/
structure WalkEntry where
  path : String
  name : String
  isDir : Bool
  content : Option (List Line)
deriving Repr

/-- `ProcessFile` (src lines 110-135): dispatch on the file's basename;
`accounts.jsonl` and `roles.jsonl` are the recognized names (the label is used
both as the object type and as the general type), every other name is silently
skipped.  Returns the new store and the emitted log lines; the error return of
`ProcessFileObjects` (open failure) is discarded exactly as the goroutine in
`Run` discards `ProcessFile`'s return value, leaving the store unchanged. -/
def processFile (ctx : IngestCtx) (entry : WalkEntry) (s : Store) : Store × List LogEvent :=
  let runPFO : NodeLabel → NodeLabel → Store × List LogEvent := fun ot gt =>
    match processFileObjects ctx entry.content ot gt s with
    | .ok st => (st.store, st.logs)
    | .error _ => (s, [])
  match entry.name with
  | "accounts.jsonl" => runPFO .Account .Account
  | "roles.jsonl" => runPFO .Role .Role
  | _ => (s, [])

/-- `NewCloudFoxIngestor`'s connection configuration type (src lines 43-47). -/
structure Neo4jConfig where
  uri : String
  username : String
  password : String
deriving DecidableEq, Repr

/-- The configuration value built inside `NewCloudFoxIngestor` (src lines
57-61).  The function takes no parameters: every field is a string literal in
its body. -/
def newCloudFoxIngestorConfig : Neo4jConfig :=
  ⟨"neo4j://localhost:7687", "neo4j", "cloudfox"⟩

/-- Observable events of one `Run` invocation, in the order the sequential
model emits them.  `workerDone` is the completion of one file worker; the
`sync.WaitGroup` barrier guarantees that in every real schedule all
`workerDone` events precede `barrier`. -/
inductive Event
  | connectivity (ok : Bool)
  | workerStart (path : String)
  | workerDone (path : String)
  | barrier
  | resolverQuery (ok : Bool)
  | close
deriving DecidableEq, Repr

/-- The environment one `Run` invocation executes in: the result of
`VerifyConnectivity` (`some e` is a failure with error `e`), the directory
walk (root path first entry semantics handled below), the result of the
post-processing merge query, and the ingestion collaborators. -/
structure RunEnv where
  connectivityError : Option String
  rootPath : String
  entries : List WalkEntry
  resolverError : Option String
  ctx : IngestCtx

/-- What a `Run` invocation produces: its return value, its event trace, and
the store it leaves behind (the store-side effect of the resolver's
`apoc.refactor.mergeNodes` is not modelled: no claim depends on it, and the
spec notes its property-conflict policy is store-implementation-defined). -/
structure RunOutcome where
  result : Except String Unit
  trace : List Event
  store : Store

/-- The entries `Run`'s walk callback dispatches workers for (src lines
256-271): every walked entry whose path differs from the root directory
itself — there is no check of `info` beyond that. -/
def dispatched (env : RunEnv) : List WalkEntry :=
  env.entries.filter (fun e => e.path != env.rootPath)

/-- The file workers, sequentialized: each dispatched entry is processed by
`ProcessFile` (its per-file log lines go to the logger and are dropped here),
and its start/completion events are recorded. -/
def workerPass (ctx : IngestCtx) (s : Store) : List WalkEntry → Store × List Event
  | [] => (s, [])
  | e :: rest =>
      let t := workerPass ctx ((processFile ctx e s).1) rest
      (t.1, .workerStart e.path :: .workerDone e.path :: t.2)

/-- `Run` (src lines 231-283): verify connectivity (failure returns that error
with the deferred close never registered); walk the directory and dispatch one
worker per non-root entry; wait on the barrier; run the post-processing merge
query exactly once (failure returns that error); the deferred close releases
the driver on every path after the connectivity check succeeded. -/
def run (env : RunEnv) (s0 : Store) : RunOutcome :=
  match env.connectivityError with
  | some e => ⟨Except.error e, [.connectivity false], s0⟩
  | none =>
      let ws := workerPass env.ctx s0 (dispatched env)
      let pre := Event.connectivity true :: ws.2 ++ [Event.barrier]
      match env.resolverError with
      | some e => ⟨Except.error e, pre ++ [.resolverQuery false, .close], ws.1⟩
      | none => ⟨Except.ok (), pre ++ [.resolverQuery true, .close], ws.1⟩

/-- Count the nodes of a store satisfying `p`. -/
def countNodesWith (s : Store) (p : StoreNode → Bool) : Nat :=
  (s.nodes.filter p).length

/-- The paths for which a worker was started, in dispatch order. -/
def workerStartPaths (tr : List Event) : List String :=
  tr.filterMap fun ev =>
    match ev with
    | .workerStart p => some p
    | _ => none

/-! ### Concrete inputs used by the claims -/

/-- A context with an empty (zero-valued) prototype, no synthesized
relationships, and a healthy store. -/
def ctx1 : IngestCtx := ⟨fun _ => [], fun _ _ => [], fun _ => false⟩

/-- An `accounts.jsonl` whose first line sets `Id` and `Name` and whose second
line sets only `Id`. -/
def leakFile : List Line :=
  [Line.obj "line1" [("Id", PVal.str "1"), ("Name", PVal.str "prod")],
   Line.obj "line2" [("Id", PVal.str "2")]]

/-- An `accounts.jsonl` with one record line followed by one blank line. -/
def blankFile : List Line :=
  [Line.obj "line1" [("Id", PVal.str "1"), ("Name", PVal.str "prod")], Line.blank]

/-- An `accounts.jsonl` with 9 valid lines (distinct ids) and 1 malformed
line in the middle. -/
def mixedFile : List Line :=
  [Line.obj "l1" [("Id", PVal.str "1")], Line.obj "l2" [("Id", PVal.str "2")],
   Line.obj "l3" [("Id", PVal.str "3")], Line.obj "l4" [("Id", PVal.str "4")],
   Line.malformed "notjson",
   Line.obj "l5" [("Id", PVal.str "5")], Line.obj "l6" [("Id", PVal.str "6")],
   Line.obj "l7" [("Id", PVal.str "7")], Line.obj "l8" [("Id", PVal.str "8")],
   Line.obj "l9" [("Id", PVal.str "9")]]

/-- The record line of the idempotence property: `Id` "111111111111",
`Name` "prod". -/
def accountLine : Line :=
  Line.obj "account-line" [("Id", PVal.str "111111111111"), ("Name", PVal.str "prod")]

/-- The decoded form of `accountLine` (starting from the zero prototype). -/
def accountProps : Props :=
  [("Id", PVal.str "111111111111"), ("Name", PVal.str "prod")]

/-- A context for the idempotence property: zero prototype, healthy store, and
an arbitrary pure relationship synthesizer `mk`. -/
def idemCtx (mk : NodeLabel → Props → List Relationship) : IngestCtx :=
  ⟨fun _ => [], mk, fun _ => false⟩

/-- Ingest the one-line accounts file once, starting from store `s` (the store
left behind by `ProcessFileObjects`; on an open failure the store is
unchanged). -/
def ingestAccountsFile (mk : NodeLabel → Props → List Relationship) (s : Store) : Store :=
  match processFileObjects (idemCtx mk) (some [accountLine]) .Account .Account s with
  | .ok st => st.store
  | .error _ => s

/-- Exactly-one-node predicate of the idempotence property: the node carries
both the ingested `Id` and `Name "prod"`. -/
def isProdAccountNode (n : StoreNode) : Bool :=
  lookupField n.props "Id" == some (PVal.str "111111111111") &&
  lookupField n.props "Name" == some (PVal.str "prod")

/-- The node the first ingestion of `accountLine` creates in an empty store. -/
def prodAccountNode : StoreNode := ⟨0, [.Account, .Account], accountProps⟩

/-- The store after the node-merge step of the first ingestion of
`accountLine` into an empty store. -/
def prodAccountStore : Store := ⟨1, [prodAccountNode], []⟩

/-- A directory walk containing the root itself, a subdirectory, and one
regular recognized file inside it. -/
def envWithSubdir : RunEnv :=
  ⟨none, "out",
   [⟨"out", "out", true, none⟩,
    ⟨"out/sub", "sub", true, none⟩,
    ⟨"out/sub/accounts.jsonl", "accounts.jsonl", false, some [accountLine]⟩],
   none, ctx1⟩

/-- An environment whose connectivity check fails. -/
def envConnFail : RunEnv :=
  ⟨some "connection refused", "out",
   [⟨"out", "out", true, none⟩,
    ⟨"out/accounts.jsonl", "accounts.jsonl", false, some [accountLine]⟩],
   none, ctx1⟩

/-- An environment that reaches the resolver and fails there. -/
def envResolverFail : RunEnv :=
  ⟨none, "out",
   [⟨"out", "out", true, none⟩,
    ⟨"out/accounts.jsonl", "accounts.jsonl", false, some [accountLine]⟩],
   some "resolver exploded", ctx1⟩

/-! ### Notions used by the idempotence proofs -/

/-- `t` extends `s`: nodes and relationships are only appended, existing ones
are untouched, and every appended node is a relationship-endpoint stub
carrying a single identity property.  This is the shape invariant of
`insertRelBatch`. -/
def extendsStore (s t : Store) : Prop :=
  ∃ ns rs,
    t.nodes = s.nodes ++ ns ∧ t.rels = s.rels ++ rs ∧
    ∀ n ∈ ns, ∃ p v, n.props = [(p, v)]

/-- Relationship row `r` is settled in store `s`: both endpoint lookups
resolve, and a relationship of the row's type already runs between the two
resolved endpoints.  Applying the row to a store in which it is settled
changes nothing. -/
def settled (s : Store) (r : Relationship) : Prop :=
  match findNode s r.sourceLabel r.sourceProperty (PVal.str r.sourceNodeId),
        findNode s r.targetLabel r.targetProperty (PVal.str r.targetNodeId) with
  | some nf, some nt => relExists s nf.nid r.relType nt.nid = true
  | _, _ => False

/-- Ingesting the same recognized file twice in one process.  Modelled from
the spec: `models.NodeLabelToNodeMap` (not under the provided sources) is a
global map whose values are one prototype per label held by pointer — the
`schema.Node` interface value must hold a pointer for the `json.Unmarshal`
call at src line 157 to decode into it — so the decode target of
`ProcessFileObjects` is the pointee itself and its mutations persist across
calls (spec section 9 notes that the source's global schema table is not
read-only and that the mutable decode target is reused).  The second pass
therefore starts with the decode target in the state the first pass left it;
the per-call log and query accumulators start fresh. -/
def ingestFileTwice (ctx : IngestCtx) (lines : List Line)
    (objectType generalType : NodeLabel) (s : Store) : LoopState × LoopState :=
  let st1 := processLines ctx objectType generalType (initLoopState ctx objectType s) lines
  let st2 := processLines ctx objectType generalType ⟨st1.object, st1.store, [], []⟩ lines
  (st1, st2)

/-- A recognized file whose two lines carry heterogeneous field sets: line 2
has a field (`Other`) absent from line 1. -/
def heteroFile : List Line :=
  [Line.obj "line1" [("Id", PVal.str "1"), ("Name", PVal.str "a")],
   Line.obj "line2" [("Id", PVal.str "2"), ("Other", PVal.str "x")]]

/-! ### Claim theorems: parser and constructor behavior -/

/-- C1: the decode target declared once before the scan loop is reused across
lines, so a field absent from a later line's JSON carries the value it had on
an earlier line into the node written for the later line.  Evaluating the
embedded `ProcessFileObjects` on a file whose first line is
`Id:"1", Name:"prod"` and whose second line is only `Id:"2"`, the store ends
up with a node carrying `Id:"2"` **and** `Name:"prod"`. -/
theorem processFileObjects_reuses_decode_target :
    countNodesWith
      (processLines ctx1 .Account .Account (initLoopState ctx1 .Account emptyStore) leakFile).store
      (fun n =>
        lookupField n.props "Id" == some (PVal.str "2") &&
        lookupField n.props "Name" == some (PVal.str "prod")) = 1 := by
  decide

/-- C2: a blank line is not skipped entirely.  The `len(line) > 0` guard only
protects the `json.Unmarshal` call; `MakeRelationships` and `InsertDBObjects`
still run for the blank line with the stale decode target, so a file whose
second line is blank issues the first line's node-merge query twice. -/
theorem blank_line_still_issues_write :
    (processLines ctx1 .Account .Account (initLoopState ctx1 .Account emptyStore) blankFile).ops =
      [Op.mergeNode [.Account, .Account] (some (PVal.str "1"))
        [("Id", PVal.str "1"), ("Name", PVal.str "prod")],
       Op.mergeNode [.Account, .Account] (some (PVal.str "1"))
        [("Id", PVal.str "1"), ("Name", PVal.str "prod")]] := by
  decide

/-- C7 counterexample: the connection parameters are not supplied externally —
`NewCloudFoxIngestor` takes no parameters and builds its configuration from
string literals, so the core itself fixes address, principal and credential,
and no caller-chosen configuration (such as the one on the right) can ever be
in effect. -/
theorem newCloudFoxIngestorConfig_is_fixed :
    newCloudFoxIngestorConfig = ⟨"neo4j://localhost:7687", "neo4j", "cloudfox"⟩ ∧
    newCloudFoxIngestorConfig ≠ ⟨"neo4j://db.example.org:7687", "svc-user", "s3cret"⟩ := by
  exact ⟨rfl, by decide⟩

/-- C7 amended: the store connection parameters are hardcoded inside
`NewCloudFoxIngestor` — uri `neo4j://localhost:7687`, principal `neo4j`,
credential `cloudfox`. -/
theorem newCloudFoxIngestorConfig_hardcoded :
    newCloudFoxIngestorConfig.uri = "neo4j://localhost:7687" ∧
    newCloudFoxIngestorConfig.username = "neo4j" ∧
    newCloudFoxIngestorConfig.password = "cloudfox" :=
  ⟨rfl, rfl, rfl⟩

/-- C8: a malformed line only logs a decode error carrying the raw line — no
store query, no store change, no change to the decode target — and the scan
loop continues with the remaining lines; concretely, a file with 9 valid lines
and 1 malformed line ingests exactly 9 nodes, issues exactly 9 queries and
logs exactly the one decode error. -/
theorem malformed_line_logged_and_skipped :
    (∀ (ctx : IngestCtx) (ot gt : NodeLabel) (st : LoopState) (raw : String),
      processLine ctx ot gt st (.malformed raw) =
        { st with logs := st.logs ++ [.decodeError raw] }) ∧
    (∀ (ctx : IngestCtx) (ot gt : NodeLabel) (st : LoopState) (l1 l2 : List Line),
      processLines ctx ot gt st (l1 ++ l2) =
        processLines ctx ot gt (processLines ctx ot gt st l1) l2) ∧
    countNodesWith
      (processLines ctx1 .Account .Account (initLoopState ctx1 .Account emptyStore) mixedFile).store
      (fun _ => true) = 9 ∧
    (processLines ctx1 .Account .Account (initLoopState ctx1 .Account emptyStore) mixedFile).logs =
      [.decodeError "notjson"] ∧
    (processLines ctx1 .Account .Account (initLoopState ctx1 .Account emptyStore) mixedFile).ops.length = 9 := by
  refine ⟨fun ctx ot gt st raw => rfl, fun ctx ot gt st l1 l2 => ?_, by decide, by decide, by decide⟩
  simp [processLines, List.foldl_append]

/-! ### Claim theorems: Run's return value and connection lifecycle -/

/-- C4: `Run` returns an error exactly when the connectivity check fails (that
error) or, connectivity having succeeded, the resolver query fails (that
error); and its return value is unchanged under any change to the walked
entries, their contents, the root path, the ingestion collaborators or the
starting store — per-line decode failures, conversion failures, write
failures and file-open failures are all absorbed. -/
theorem run_result_iff_infrastructure :
    ∀ (env : RunEnv) (s0 : Store) (e : String),
      ((run env s0).result = .error e ↔
        env.connectivityError = some e ∨
        (env.connectivityError = none ∧ env.resolverError = some e)) ∧
      ∀ (entries2 : List WalkEntry) (root2 : String) (ctx2 : IngestCtx) (s2 : Store),
        (run ⟨env.connectivityError, root2, entries2, env.resolverError, ctx2⟩ s2).result =
          (run env s0).result := by
  intro env s0 e
  rcases env with ⟨conn, root, entries, resolver, ctx⟩
  constructor
  · cases conn with
    | some c => simp [run]
    | none =>
        cases resolver with
        | some r => simp [run]
        | none => simp [run]
  · intro entries2 root2 ctx2 s2
    cases conn with
    | some c => simp [run]
    | none =>
        cases resolver with
        | some r => simp [run]
        | none => simp [run]

/-- C10: when the connectivity check fails, `Run` returns that error at once,
and since `defer Close` is only registered after the check succeeds, the
driver is never closed on that path. -/
theorem conn_failure_returns_without_close :
    ∀ (env : RunEnv) (s0 : Store) (e : String), env.connectivityError = some e →
      (run env s0).result = .error e ∧ Event.close ∉ (run env s0).trace := by
  intro env s0 e h
  simp [run, h]

/-- C10 witness: a concrete failing connectivity check. -/
theorem conn_failure_returns_without_close_witness :
    (run envConnFail emptyStore).result = .error "connection refused" ∧
    Event.close ∉ (run envConnFail emptyStore).trace :=
  conn_failure_returns_without_close envConnFail emptyStore "connection refused" rfl

/-! ### Lemmas about the worker pass -/

theorem workerPass_events_shape (ctx : IngestCtx) :
    ∀ (es : List WalkEntry) (s : Store) (ev : Event), ev ∈ (workerPass ctx s es).2 →
      (∃ p, ev = Event.workerStart p) ∨ ∃ p, ev = Event.workerDone p := by
  intro es
  induction es with
  | nil => intro s ev h; simp [workerPass] at h
  | cons e rest ih =>
      intro s ev h
      simp only [workerPass, List.mem_cons] at h
      rcases h with h | h | h
      · exact Or.inl ⟨e.path, h⟩
      · exact Or.inr ⟨e.path, h⟩
      · exact ih _ ev h

theorem workerPass_done_mem (ctx : IngestCtx) :
    ∀ (es : List WalkEntry) (s : Store) (e : WalkEntry), e ∈ es →
      Event.workerDone e.path ∈ (workerPass ctx s es).2 := by
  intro es
  induction es with
  | nil => intro s e h; cases h
  | cons e0 rest ih =>
      intro s e h
      rcases List.mem_cons.mp h with h | h
      · subst h; simp [workerPass]
      · exact List.mem_cons.mpr (Or.inr
          (List.mem_cons.mpr (Or.inr (ih ((processFile ctx e0 s).1) e h))))

theorem workerPass_start_paths (ctx : IngestCtx) :
    ∀ (es : List WalkEntry) (s : Store),
      workerStartPaths (workerPass ctx s es).2 = es.map (fun e => e.path) := by
  intro es
  induction es with
  | nil => intro s; rfl
  | cons e rest ih =>
      intro s
      simp only [workerPass, workerStartPaths, List.filterMap_cons, List.map_cons]
      simpa [workerStartPaths] using ih ((processFile ctx e s).1)

/-! ### Claim theorems: dispatching, barrier, resolver, close -/

/-- C6 counterexample: the walk callback only skips the root path and never
checks `info` for regularity, so a subdirectory entry also gets a worker: with
one subdirectory and one regular file under the root, two workers start while
only one regular file exists. -/
theorem subdirectory_gets_worker :
    Event.workerStart "out/sub" ∈ (run envWithSubdir emptyStore).trace ∧
    (workerStartPaths (run envWithSubdir emptyStore).trace).length = 2 ∧
    (envWithSubdir.entries.filter
      (fun e => !e.isDir && e.path != envWithSubdir.rootPath)).length = 1 := by
  decide

/-- C6 amended: during dispatching, `Run` starts exactly one worker for every
walked entry other than the root directory itself, in walk order, regular or
not — directories included. -/
theorem one_worker_per_nonroot_entry :
    ∀ (env : RunEnv) (s0 : Store), env.connectivityError = none →
      workerStartPaths (run env s0).trace = (dispatched env).map (fun e => e.path) := by
  intro env s0 h
  cases hr : env.resolverError with
  | some r =>
      simp only [run, h, hr, workerStartPaths, List.filterMap_cons, List.filterMap_append]
      simpa [workerStartPaths] using workerPass_start_paths env.ctx (dispatched env) s0
  | none =>
      simp only [run, h, hr, workerStartPaths, List.filterMap_cons, List.filterMap_append]
      simpa [workerStartPaths] using workerPass_start_paths env.ctx (dispatched env) s0

/-- C6 amended witness: on the walk with a subdirectory, the started workers
are exactly the two non-root entries. -/
theorem one_worker_per_nonroot_entry_witness :
    workerStartPaths (run envWithSubdir emptyStore).trace =
      (dispatched envWithSubdir).map (fun e => e.path) :=
  one_worker_per_nonroot_entry envWithSubdir emptyStore rfl

/-- C5: whenever `Run` reaches the resolving stage (the connectivity check
succeeded), the post-processing merge query is executed exactly once, and
every dispatched worker's completion precedes it in the trace. -/
theorem resolver_once_after_all_workers :
    ∀ (env : RunEnv) (s0 : Store), env.connectivityError = none →
      ∃ b pre post,
        (run env s0).trace = pre ++ Event.resolverQuery b :: post ∧
        (∀ b', Event.resolverQuery b' ∉ pre) ∧
        (∀ b', Event.resolverQuery b' ∉ post) ∧
        ∀ e ∈ dispatched env, Event.workerDone e.path ∈ pre := by
  intro env s0 h
  have hpre : ∀ b', Event.resolverQuery b' ∉
      Event.connectivity true :: (workerPass env.ctx s0 (dispatched env)).2 ++ [Event.barrier] := by
    intro b' hmem
    rcases List.mem_cons.mp hmem with hc | hmem
    · exact Event.noConfusion hc
    · rcases List.mem_append.mp hmem with hw | hb
      · rcases workerPass_events_shape env.ctx (dispatched env) s0 _ hw with ⟨p, hp⟩ | ⟨p, hp⟩ <;>
          exact Event.noConfusion hp
      · simp at hb
  have hdone : ∀ e ∈ dispatched env, Event.workerDone e.path ∈
      Event.connectivity true :: (workerPass env.ctx s0 (dispatched env)).2 ++ [Event.barrier] := by
    intro e he
    exact List.mem_cons.mpr (Or.inr (List.mem_append.mpr
      (Or.inl (workerPass_done_mem env.ctx (dispatched env) s0 e he))))
  cases hr : env.resolverError with
  | some r =>
      refine ⟨false,
        Event.connectivity true :: (workerPass env.ctx s0 (dispatched env)).2 ++ [Event.barrier],
        [Event.close], ?_, hpre, ?_, hdone⟩
      · simp [run, h, hr]
      · intro b'; simp
  | none =>
      refine ⟨true,
        Event.connectivity true :: (workerPass env.ctx s0 (dispatched env)).2 ++ [Event.barrier],
        [Event.close], ?_, hpre, ?_, hdone⟩
      · simp [run, h, hr]
      · intro b'; simp

/-- C5 witness: a concrete run reaching the resolving stage. -/
theorem resolver_once_after_all_workers_witness :
    ∃ b pre post,
      (run envWithSubdir emptyStore).trace = pre ++ Event.resolverQuery b :: post ∧
      (∀ b', Event.resolverQuery b' ∉ pre) ∧
      (∀ b', Event.resolverQuery b' ∉ post) ∧
      ∀ e ∈ dispatched envWithSubdir, Event.workerDone e.path ∈ pre :=
  resolver_once_after_all_workers envWithSubdir emptyStore rfl

/-- C9: once the connectivity check has succeeded, the driver close is the
final event of the run on every path — also when the resolver query fails —
and it happens exactly once. -/
theorem driver_closed_on_every_path :
    ∀ (env : RunEnv) (s0 : Store), env.connectivityError = none →
      ∃ pre, (run env s0).trace = pre ++ [Event.close] ∧ Event.close ∉ pre := by
  intro env s0 h
  have hnc : Event.close ∉
      Event.connectivity true :: (workerPass env.ctx s0 (dispatched env)).2 ++ [Event.barrier] := by
    intro hmem
    rcases List.mem_cons.mp hmem with hc | hmem
    · exact Event.noConfusion hc
    · rcases List.mem_append.mp hmem with hw | hb
      · rcases workerPass_events_shape env.ctx (dispatched env) s0 _ hw with ⟨p, hp⟩ | ⟨p, hp⟩ <;>
          exact Event.noConfusion hp
      · simp at hb
  cases hr : env.resolverError with
  | some r =>
      refine ⟨Event.connectivity true :: (workerPass env.ctx s0 (dispatched env)).2 ++
        [Event.barrier, Event.resolverQuery false], ?_, ?_⟩
      · simp [run, h, hr]
      · intro hmem
        rcases List.mem_cons.mp hmem with hc | hmem
        · exact Event.noConfusion hc
        · rcases List.mem_append.mp hmem with hw | hb
          · rcases workerPass_events_shape env.ctx (dispatched env) s0 _ hw with ⟨p, hp⟩ | ⟨p, hp⟩ <;>
              exact Event.noConfusion hp
          · simp at hb
  | none =>
      refine ⟨Event.connectivity true :: (workerPass env.ctx s0 (dispatched env)).2 ++
        [Event.barrier, Event.resolverQuery true], ?_, ?_⟩
      · simp [run, h, hr]
      · intro hmem
        rcases List.mem_cons.mp hmem with hc | hmem
        · exact Event.noConfusion hc
        · rcases List.mem_append.mp hmem with hw | hb
          · rcases workerPass_events_shape env.ctx (dispatched env) s0 _ hw with ⟨p, hp⟩ | ⟨p, hp⟩ <;>
              exact Event.noConfusion hp
          · simp at hb

/-- C9 witness: a concrete run whose resolver query fails still closes the
driver last. -/
theorem driver_closed_on_every_path_witness :
    ∃ pre, (run envResolverFail emptyStore).trace = pre ++ [Event.close] ∧
      Event.close ∉ pre :=
  driver_closed_on_every_path envResolverFail emptyStore rfl

/-! ### Lemmas: list search utilities -/

theorem find?_append_some {α} {p : α → Bool} {l1 : List α} {x : α}
    (h : l1.find? p = some x) (l2 : List α) : (l1 ++ l2).find? p = some x := by
  induction l1 with
  | nil => simp [List.find?] at h
  | cons a l ih =>
      by_cases hpa : p a
      · rw [List.find?_cons_of_pos _ hpa] at h
        rw [List.cons_append, List.find?_cons_of_pos _ hpa]
        exact h
      · rw [List.find?_cons_of_neg _ hpa] at h
        rw [List.cons_append, List.find?_cons_of_neg _ hpa]
        exact ih h

theorem find?_isSome_of_any {α} {p : α → Bool} {l : List α} (h : l.any p = true) :
    ∃ x, l.find? p = some x := by
  induction l with
  | nil => simp at h
  | cons a l ih =>
      by_cases hpa : p a
      · exact ⟨a, List.find?_cons_of_pos _ hpa⟩
      · simp only [List.any_cons, hpa, Bool.false_or] at h
        obtain ⟨x, hx⟩ := ih h
        exact ⟨x, by rw [List.find?_cons_of_neg _ hpa]; exact hx⟩

theorem any_of_find?_some {α} {p : α → Bool} {l : List α} {x : α}
    (h : l.find? p = some x) : l.any p = true :=
  List.any_eq_true.mpr ⟨x, List.mem_of_find?_eq_some h, List.find?_some h⟩

/-! ### Lemmas: the relationship batch only extends the store -/

theorem extendsStore_rfl (s : Store) : extendsStore s s :=
  ⟨[], [], by simp, by simp, by simp⟩

theorem extendsStore_trans {s t u : Store} (h1 : extendsStore s t)
    (h2 : extendsStore t u) : extendsStore s u := by
  obtain ⟨ns1, rs1, hn1, hr1, hp1⟩ := h1
  obtain ⟨ns2, rs2, hn2, hr2, hp2⟩ := h2
  refine ⟨ns1 ++ ns2, rs1 ++ rs2, ?_, ?_, ?_⟩
  · rw [hn2, hn1, List.append_assoc]
  · rw [hr2, hr1, List.append_assoc]
  · intro n hn
    rcases List.mem_append.mp hn with h | h
    · exact hp1 n h
    · exact hp2 n h

theorem applyStubMerge_extends (s : Store) (label : NodeLabel) (prop : String)
    (v : PVal) : extendsStore s (applyStubMerge s label prop v) := by
  unfold applyStubMerge
  split
  · exact extendsStore_rfl s
  · exact ⟨[⟨s.nextId, [label], [(prop, v)]⟩], [], rfl, by simp, by simp⟩

theorem stubBoth_extends (s : Store) (r : Relationship) :
    extendsStore s (stubBoth s r) :=
  extendsStore_trans (applyStubMerge_extends _ _ _ _) (applyStubMerge_extends _ _ _ _)

theorem applyRelRow_extends (s : Store) (r : Relationship) :
    extendsStore s (applyRelRow s r) := by
  have h2 := stubBoth_extends s r
  cases hf : findNode (stubBoth s r) r.sourceLabel r.sourceProperty (PVal.str r.sourceNodeId) with
  | none =>
      cases ht : findNode (stubBoth s r) r.targetLabel r.targetProperty (PVal.str r.targetNodeId) with
      | none => simpa only [applyRelRow, hf, ht] using h2
      | some nt => simpa only [applyRelRow, hf, ht] using h2
  | some nf =>
      cases ht : findNode (stubBoth s r) r.targetLabel r.targetProperty (PVal.str r.targetNodeId) with
      | none => simpa only [applyRelRow, hf, ht] using h2
      | some nt =>
          by_cases hc : relExists (stubBoth s r) nf.nid r.relType nt.nid = true
          · simpa only [applyRelRow, hf, ht, hc, if_true] using h2
          · simp only [applyRelRow, hf, ht, hc, if_false, Bool.false_eq_true, ite_false]
            exact extendsStore_trans h2 ⟨[], [⟨nf.nid, r.relType, nt.nid, r.properties⟩],
              by simp, rfl, by simp⟩

theorem insertRelBatch_extends : ∀ (rows : List Relationship) (s : Store),
    extendsStore s (insertRelBatch s rows) := by
  intro rows
  induction rows with
  | nil => intro s; exact extendsStore_rfl s
  | cons a l ih =>
      intro s
      exact extendsStore_trans (applyRelRow_extends s a) (ih (applyRelRow s a))

theorem insertRelBatch_cons (s : Store) (a : Relationship) (l : List Relationship) :
    insertRelBatch s (a :: l) = insertRelBatch (applyRelRow s a) l := rfl

/-! ### Lemmas: settledness of relationship rows -/

theorem relExists_mono {s t : Store} {rs : List StoreRel} (hr : t.rels = s.rels ++ rs)
    {a b : Nat} {ty : String} (h : relExists s a ty b = true) :
    relExists t a ty b = true := by
  unfold relExists at h ⊢
  rw [hr, List.any_append, h]
  simp

theorem settled_mono {s t : Store} (hext : extendsStore s t) {r : Relationship}
    (h : settled s r) : settled t r := by
  obtain ⟨ns, rs, hn, hr, -⟩ := hext
  cases hf : findNode s r.sourceLabel r.sourceProperty (PVal.str r.sourceNodeId) with
  | none => simp only [settled, hf] at h
  | some nf =>
      cases ht : findNode s r.targetLabel r.targetProperty (PVal.str r.targetNodeId) with
      | none => simp only [settled, hf, ht] at h
      | some nt =>
          simp only [settled, hf, ht] at h
          have hf' : findNode t r.sourceLabel r.sourceProperty (PVal.str r.sourceNodeId) = some nf := by
            unfold findNode at hf ⊢; rw [hn]; exact find?_append_some hf ns
          have ht' : findNode t r.targetLabel r.targetProperty (PVal.str r.targetNodeId) = some nt := by
            unfold findNode at ht ⊢; rw [hn]; exact find?_append_some ht ns
          simp only [settled, hf', ht']
          exact relExists_mono hr h

theorem settled_noop {s : Store} {r : Relationship} (h : settled s r) :
    applyRelRow s r = s := by
  cases hf : findNode s r.sourceLabel r.sourceProperty (PVal.str r.sourceNodeId) with
  | none => simp only [settled, hf] at h
  | some nf =>
      cases ht : findNode s r.targetLabel r.targetProperty (PVal.str r.targetNodeId) with
      | none => simp only [settled, hf, ht] at h
      | some nt =>
          simp only [settled, hf, ht] at h
          have hm1 : hasNodeMatch s r.sourceLabel r.sourceProperty (PVal.str r.sourceNodeId) = true :=
            any_of_find?_some hf
          have hm2 : hasNodeMatch s r.targetLabel r.targetProperty (PVal.str r.targetNodeId) = true :=
            any_of_find?_some ht
          have hs1 : applyStubMerge s r.sourceLabel r.sourceProperty (PVal.str r.sourceNodeId) = s := by
            unfold applyStubMerge; rw [hm1]; simp
          have hs2 : applyStubMerge s r.targetLabel r.targetProperty (PVal.str r.targetNodeId) = s := by
            unfold applyStubMerge; rw [hm2]; simp
          have hsb : stubBoth s r = s := by unfold stubBoth; rw [hs1, hs2]
          simp only [applyRelRow, hsb, hf, ht, h]
          simp

theorem hasNodeMatch_applyStubMerge (s : Store) (label : NodeLabel) (prop : String)
    (v : PVal) : hasNodeMatch (applyStubMerge s label prop v) label prop v = true := by
  unfold applyStubMerge
  split
  · assumption
  · unfold hasNodeMatch
    simp [List.any_append, nodeMatches, lookupField]

theorem hasNodeMatch_mono {s t : Store} (hext : extendsStore s t) {label : NodeLabel}
    {prop : String} {v : PVal} (h : hasNodeMatch s label prop v = true) :
    hasNodeMatch t label prop v = true := by
  obtain ⟨ns, rs, hn, -, -⟩ := hext
  unfold hasNodeMatch at h ⊢
  rw [hn, List.any_append, h]
  simp

theorem settled_applyRelRow (s : Store) (r : Relationship) :
    settled (applyRelRow s r) r := by
  have hm1 : hasNodeMatch (stubBoth s r)
      r.sourceLabel r.sourceProperty (PVal.str r.sourceNodeId) = true :=
    hasNodeMatch_mono (applyStubMerge_extends _ _ _ _)
      (hasNodeMatch_applyStubMerge s r.sourceLabel r.sourceProperty (PVal.str r.sourceNodeId))
  have hm2 : hasNodeMatch (stubBoth s r)
      r.targetLabel r.targetProperty (PVal.str r.targetNodeId) = true :=
    hasNodeMatch_applyStubMerge _ r.targetLabel r.targetProperty (PVal.str r.targetNodeId)
  obtain ⟨nf, hnf⟩ := find?_isSome_of_any hm1
  obtain ⟨nt, hnt⟩ := find?_isSome_of_any hm2
  have hnf' : findNode (stubBoth s r)
      r.sourceLabel r.sourceProperty (PVal.str r.sourceNodeId) = some nf := hnf
  have hnt' : findNode (stubBoth s r)
      r.targetLabel r.targetProperty (PVal.str r.targetNodeId) = some nt := hnt
  simp only [applyRelRow, hnf', hnt']
  split
  · next hcond =>
      simp only [settled, hnf', hnt']
      exact hcond
  · next hcond =>
      have hnf2 : findNode
          { stubBoth s r with
            rels := (stubBoth s r).rels ++ [⟨nf.nid, r.relType, nt.nid, r.properties⟩] }
          r.sourceLabel r.sourceProperty (PVal.str r.sourceNodeId) = some nf := hnf'
      have hnt2 : findNode
          { stubBoth s r with
            rels := (stubBoth s r).rels ++ [⟨nf.nid, r.relType, nt.nid, r.properties⟩] }
          r.targetLabel r.targetProperty (PVal.str r.targetNodeId) = some nt := hnt'
      simp only [settled, hnf2, hnt2]
      simp [relExists, List.any_append]

theorem settled_after_batch : ∀ (rows : List Relationship) (s : Store) (r : Relationship),
    r ∈ rows → settled (insertRelBatch s rows) r := by
  intro rows
  induction rows with
  | nil => intro s r h; cases h
  | cons a l ih =>
      intro s r h
      rcases List.mem_cons.mp h with rfl | h
      · rw [insertRelBatch_cons]
        exact settled_mono (insertRelBatch_extends l (applyRelRow s r)) (settled_applyRelRow s r)
      · rw [insertRelBatch_cons]
        exact ih (applyRelRow s a) r h

theorem insertRelBatch_noop : ∀ (rows : List Relationship) (s : Store),
    (∀ r ∈ rows, settled s r) → insertRelBatch s rows = s := by
  intro rows
  induction rows with
  | nil => intro s _; rfl
  | cons a l ih =>
      intro s h
      rw [insertRelBatch_cons, settled_noop (h a (List.mem_cons_self a l))]
      exact ih s (fun r hr => h r (List.mem_cons_of_mem a hr))

/-- Re-submitting any relationship batch to the store it produced changes
nothing. -/
theorem insertRelBatch_idem (s : Store) (rows : List Relationship) :
    insertRelBatch (insertRelBatch s rows) rows = insertRelBatch s rows :=
  insertRelBatch_noop rows (insertRelBatch s rows) (fun r hr => settled_after_batch rows s r hr)

/-! ### Lemmas: ingesting the one-line accounts file -/

theorem ingestAccountsFile_unfold (mk : NodeLabel → Props → List Relationship) (s : Store) :
    ingestAccountsFile mk s =
      (insertDBObjects (idemCtx mk) (some accountProps) (mk .Account accountProps)
        [.Account, .Account] s).1 := rfl

theorem insertDBObjects_account (mk : NodeLabel → Props → List Relationship)
    (rels : List Relationship) (s : Store) :
    (insertDBObjects (idemCtx mk) (some accountProps) rels [.Account, .Account] s).1 =
      if rels.isEmpty
      then applyMergeNode s [.Account, .Account] (some (PVal.str "111111111111")) accountProps
      else insertRelBatch
        (applyMergeNode s [.Account, .Account] (some (PVal.str "111111111111")) accountProps)
        (rels.map defaultRelProps) := by
  cases rels with
  | nil => rfl
  | cons a l => rfl

theorem ingestAccountsFile_eq (mk : NodeLabel → Props → List Relationship) (s : Store) :
    ingestAccountsFile mk s =
      if (mk .Account accountProps).isEmpty
      then applyMergeNode s [.Account, .Account] (some (PVal.str "111111111111")) accountProps
      else insertRelBatch
        (applyMergeNode s [.Account, .Account] (some (PVal.str "111111111111")) accountProps)
        ((mk .Account accountProps).map defaultRelProps) :=
  (ingestAccountsFile_unfold mk s).trans (insertDBObjects_account mk (mk .Account accountProps) s)

theorem single_pair_not_prod (n : StoreNode) (p : String) (v : PVal)
    (h : n.props = [(p, v)]) : isProdAccountNode n = false := by
  unfold isProdAccountNode
  rw [h]
  by_cases hp : p = "Id"
  · subst hp
    simp [lookupField]
  · simp [lookupField, hp]

theorem count_prod_in_extended {ext : List StoreNode}
    (hstub : ∀ n ∈ ext, ∃ p v, n.props = [(p, v)]) (s1 : Store)
    (hn : s1.nodes = prodAccountNode :: ext) :
    countNodesWith s1 isProdAccountNode = 1 := by
  unfold countNodesWith
  rw [hn, List.filter_cons]
  have h1 : isProdAccountNode prodAccountNode = true := by decide
  have h2 : ext.filter isProdAccountNode = [] := by
    refine List.filter_eq_nil_iff.mpr ?_
    intro a ha
    obtain ⟨p, v, hpv⟩ := hstub a ha
    simp [single_pair_not_prod a p v hpv]
  simp [h1, h2]

theorem applyMergeNode_prod_noop {s1 : Store} {ext : List StoreNode}
    (hn : s1.nodes = prodAccountNode :: ext) :
    applyMergeNode s1 [.Account, .Account] (some (PVal.str "111111111111")) accountProps = s1 := by
  have hu : updateFirst (nodeMatches .Account "Id" (PVal.str "111111111111"))
      (fun n => { n with labels := [NodeLabel.Account, NodeLabel.Account],
                         props := mergeProps n.props accountProps })
      (prodAccountNode :: ext) = some (prodAccountNode :: ext) := by
    have hm : nodeMatches .Account "Id" (PVal.str "111111111111") prodAccountNode = true := by
      decide
    have hfix : ({ prodAccountNode with
        labels := [NodeLabel.Account, NodeLabel.Account],
        props := mergeProps prodAccountNode.props accountProps } : StoreNode) =
        prodAccountNode := by decide
    unfold updateFirst
    rw [hm]
    simp only [if_true, hfix]
  simp only [applyMergeNode, List.head?_cons, hn, hu]
  rw [← hn]

/-! ### Claim theorem: idempotence of ingestion -/

theorem ingestAccountsFile_idem (mk : NodeLabel → Props → List Relationship) :
    ingestAccountsFile mk (ingestAccountsFile mk emptyStore) =
      ingestAccountsFile mk emptyStore ∧
    countNodesWith (ingestAccountsFile mk (ingestAccountsFile mk emptyStore))
      isProdAccountNode = 1 := by
  cases hrels : mk .Account accountProps with
  | nil =>
      have h1 : ingestAccountsFile mk emptyStore = prodAccountStore := by
        rw [ingestAccountsFile_eq, hrels]
        rfl
      have h2 : ingestAccountsFile mk prodAccountStore = prodAccountStore := by
        rw [ingestAccountsFile_eq, hrels]
        decide
      rw [h1, h2]
      exact ⟨rfl, by decide⟩
  | cons a l =>
      have hne : (mk .Account accountProps).isEmpty = false := by rw [hrels]; rfl
      have h1 : ingestAccountsFile mk emptyStore =
          insertRelBatch prodAccountStore ((mk .Account accountProps).map defaultRelProps) := by
        rw [ingestAccountsFile_eq]
        simp only [hne, Bool.false_eq_true, if_false]
        rfl
      obtain ⟨ns, rs, hnn, hrr, hstub⟩ :=
        insertRelBatch_extends ((mk .Account accountProps).map defaultRelProps) prodAccountStore
      have hn1 : (insertRelBatch prodAccountStore
          ((mk .Account accountProps).map defaultRelProps)).nodes = prodAccountNode :: ns := by
        rw [hnn]; rfl
      have h3 := applyMergeNode_prod_noop hn1
      have h2 : ingestAccountsFile mk (insertRelBatch prodAccountStore
          ((mk .Account accountProps).map defaultRelProps)) =
          insertRelBatch prodAccountStore ((mk .Account accountProps).map defaultRelProps) := by
        rw [ingestAccountsFile_eq]
        simp only [hne, Bool.false_eq_true, if_false]
        rw [h3]
        exact insertRelBatch_idem prodAccountStore ((mk .Account accountProps).map defaultRelProps)
      constructor
      · rw [h1, h2]
      · rw [h1, h2]
        exact count_prod_in_extended hstub _ hn1

/-- C3 counterexample: ingestion is not idempotent for every recognized file.
The decode target is the pointer-backed prototype shared across
`ProcessFileObjects` calls, so re-ingesting a two-line file whose second line
carries a field (`Other:"x"`) absent from the first writes that field into the
FIRST line's node on the second pass: after re-ingestion the store differs,
and the node with `Id "1"` now carries `Other "x"` which no ingested line ever
gave it. -/
theorem reingestion_changes_store :
    (ingestFileTwice ctx1 heteroFile .Account .Account emptyStore).2.store ≠
      (ingestFileTwice ctx1 heteroFile .Account .Account emptyStore).1.store ∧
    countNodesWith (ingestFileTwice ctx1 heteroFile .Account .Account emptyStore).1.store
      (fun n => lookupField n.props "Id" == some (PVal.str "1") &&
                lookupField n.props "Other" == some (PVal.str "x")) = 0 ∧
    countNodesWith (ingestFileTwice ctx1 heteroFile .Account .Account emptyStore).2.store
      (fun n => lookupField n.props "Id" == some (PVal.str "1") &&
                lookupField n.props "Other" == some (PVal.str "x")) = 1 := by
  decide

/-- C3 (amended): re-submitting the same relationship batch creates no
duplicate relationship, and ingesting a file containing
`Id:"111111111111", Name:"prod"` twice — the second pass starting with the
persisted decode target — leaves the store exactly as after the first
ingestion, with exactly one node carrying that `Id` and `Name "prod"`, for
every relationship synthesizer the `models` package could define; ingestion
of a general recognized file, by contrast, is not idempotent (see the
counterexample). -/
theorem ingestion_idempotent :
    (∀ (s : Store) (rows : List Relationship),
      insertRelBatch (insertRelBatch s rows) rows = insertRelBatch s rows) ∧
    ∀ (mk : NodeLabel → Props → List Relationship),
      (ingestFileTwice (idemCtx mk) [accountLine] .Account .Account emptyStore).2.store =
        (ingestFileTwice (idemCtx mk) [accountLine] .Account .Account emptyStore).1.store ∧
      countNodesWith
        (ingestFileTwice (idemCtx mk) [accountLine] .Account .Account emptyStore).2.store
        isProdAccountNode = 1 := by
  refine ⟨fun s rows => insertRelBatch_idem s rows, fun mk => ?_⟩
  have hb1 : (ingestFileTwice (idemCtx mk) [accountLine] .Account .Account emptyStore).1.store =
      ingestAccountsFile mk emptyStore := rfl
  have hb2 : (ingestFileTwice (idemCtx mk) [accountLine] .Account .Account emptyStore).2.store =
      ingestAccountsFile mk (ingestAccountsFile mk emptyStore) := rfl
  rw [hb1, hb2]
  exact ingestAccountsFile_idem mk

end CloudfoxIngestor
